import Mathlib

/-!
Shallow embedding of the block-parallel bzip2 compression pipelines of this
repository: `src/parallel_bzip2.c` (resident strategy: the whole input is
loaded into memory before the parallel phase) and `src/parallel_bzip2_mem.c`
(on-demand strategy: each worker opens the input, seeks to its block and
reads only that block).

Modelling conventions:
- A file is a `List Nat` of its bytes; a missing file is `none`.
- C `unsigned int` arithmetic is `Nat` reduced `% 2 ^ 32`; C `int` values are
  `Int` wrapped into `[-2 ^ 31, 2 ^ 31)` by `toInt32`; C `long` is a
  mathematical `Int` (no use in the source can exceed 63 bits).
- C `long` division truncates toward zero; every occurrence in the source
  that the development reasons about has a nonnegative numerator and a
  positive denominator, where Lean's `Int` division agrees with C.
- The external compressor `BZ2_bzBuffToBuffCompress` (spec 4.3: opaque,
  stateless, deterministic per call) is a parameter
  `compress : List Nat → Option (List Nat)`, `none` meaning a non-`BZ_OK`
  return.
- Allocation and I/O outcomes are environment oracles (`AllocEnv`,
  `WriteEnv`, per-block `openOk` / `allocOk` flags): the code branches on
  them exactly where the C checks `malloc` / `fopen` / `fread` / `fwrite`
  results.
- The OpenMP `parallel for schedule(dynamic)` loop is modelled by
  `scheduler_run` folding over an arbitrary completion order `sched`; the
  loop of the source attempts each index of `[0, num_blocks)` exactly once,
  which corresponds to `sched` being a permutation of `List.range n`.
  Each iteration writes only `compressed_blocks[i]` (index-partitioned
  ownership) and the shared failure counter is incremented atomically, so
  an interleaved execution is observationally a sequential fold in
  completion order.
-/

namespace ParallelBzip2

/-- Modulus of the C `unsigned int` type. -/
def U32 : Nat := 2 ^ 32

/-- Reduction of a natural number into C `unsigned int` range
(conversion / wraparound mod `2 ^ 32`). -/
def u32 (n : Nat) : Nat := n % U32

/-- Conversion of a mathematical integer to a C `int` value: reduce
mod `2 ^ 32`, then pick the representative in `[-2 ^ 31, 2 ^ 31)`. -/
def toInt32 (n : Int) : Int :=
  let r := n % (2 ^ 32 : Int)
  if r < 2 ^ 31 then r else r - 2 ^ 32

/-- The `CompressedBlock` struct of both C files.  `data == none` models a
NULL `unsigned char *data` pointer; `size` and `original_size` are the
`unsigned int` fields. -/
structure CompressedBlock where
  data : Option (List Nat)
  size : Nat
  original_size : Nat
deriving DecidableEq, Repr

/-- A `CompressedBlock` as produced by `calloc`: all fields zero. -/
def zeroBlock : CompressedBlock := { data := none, size := 0, original_size := 0 }

/-- Embedding of `get_file_size` (identical in both C files): `stat`
success yields `st_size`, failure yields `-1`.  The argument is the size
reported by a successful `stat`, or `none` when `stat` fails. -/
def get_file_size (statSize : Option Nat) : Int :=
  match statSize with
  | some st_size => (st_size : Int)
  | none => -1

/-- Embedding of `int num_blocks = (file_size + BLOCK_SIZE - 1) / BLOCK_SIZE;`
(`parallel_bzip2.c:65`, `parallel_bzip2_mem.c:55`): computed in `long`,
stored in `int`. -/
def num_blocks (file_size : Int) (BLOCK_SIZE : Nat) : Int :=
  toInt32 ((file_size + BLOCK_SIZE - 1) / BLOCK_SIZE)

/-- Embedding of `unsigned int offset = (long)i * BLOCK_SIZE;`
(`parallel_bzip2_mem.c:77`); `parallel_bzip2.c:106` computes the same value
(there via `int` multiplication, which wraps identically on the target).
The store into `unsigned int` truncates mod `2 ^ 32`. -/
def offset_of (i BLOCK_SIZE : Nat) : Nat := u32 (i * BLOCK_SIZE)

/-- Embedding of the per-block length computation
(`parallel_bzip2.c:107-111`, `parallel_bzip2_mem.c:78-82`):
`unsigned int block_size = BLOCK_SIZE; if (offset + block_size > file_size)
block_size = file_size - offset;`.  The sum `offset + block_size` wraps in
`unsigned int` before being widened to `long` for the comparison, and the
`long` difference `file_size - offset` is truncated mod `2 ^ 32` when
stored back into the `unsigned int`. -/
def block_len (file_size : Int) (i BLOCK_SIZE : Nat) : Nat :=
  let offset := offset_of i BLOCK_SIZE
  if (u32 (offset + BLOCK_SIZE) : Int) > file_size then
    ((file_size - offset) % (2 ^ 32 : Int)).toNat
  else BLOCK_SIZE

/-- Allocation outcomes inside one `compress_block` call: whether the
initial output-buffer `malloc` succeeds and whether the final shrinking
`realloc` succeeds. -/
structure AllocEnv where
  mallocOk : Bool
  reallocOk : Bool
deriving DecidableEq, Repr

/-- Embedding of `compress_block` (`parallel_bzip2.c:168-203`,
`parallel_bzip2_mem.c:179-209`).  The caller always passes a pointer to a
`calloc`-zeroed `CompressedBlock`; the returned pair is the struct contents
after the call together with the `int` return value.
- `malloc` failure: `data` holds the NULL result, return `-1`.
- compressor failure: the buffer is freed, `data` set to NULL, return `-1`
  (`size` and `original_size` keep the values assigned before the call).
- success: `BZ2_bzBuffToBuffCompress` stores the compressed bytes and
  updates `size` to the compressed length; `realloc(data, size)` shrinks
  the buffer.  The C does not check the `realloc` result: on `realloc`
  failure `data` becomes NULL while the function still returns `0`. -/
def compress_block (env : AllocEnv) (compress : List Nat → Option (List Nat))
    (input : List Nat) : CompressedBlock × Int :=
  let output_buffer_size := u32 (input.length + input.length / 100 + 600)
  if env.mallocOk = false then
    ({ data := none, size := 0, original_size := 0 }, -1)
  else
    match compress input with
    | none =>
        ({ data := none, size := output_buffer_size,
           original_size := u32 input.length }, -1)
    | some out =>
        if env.reallocOk then
          ({ data := some out, size := u32 out.length,
             original_size := u32 input.length }, 0)
        else
          ({ data := none, size := u32 out.length,
             original_size := u32 input.length }, 0)

/-- I/O environment of `write_bzip2_file`: whether `fopen(output, "wb")`
succeeds, and whether the `fwrite` for block `i` transfers all requested
bytes (`false` models an environment-caused short write). -/
structure WriteEnv where
  openOk : Bool
  writeOk : Nat → Bool

/-- The write loop of `write_bzip2_file` (`parallel_bzip2.c:215-223`,
`parallel_bzip2_mem.c:218-224`), starting at block index `i`.  `fwrite`
writes `blocks[i].size` bytes from `blocks[i].data`; the transfer is short
when the environment fails it or when the buffer holds fewer bytes than
`size` requests.  A short transfer returns the error (`none`); otherwise
the bytes are appended and the loop continues with the next block. -/
def write_loop (wenv : WriteEnv) : Nat → List CompressedBlock → Option (List Nat)
  | _, [] => some []
  | i, b :: rest =>
    let buf := (b.data.getD []).take b.size
    let written := if wenv.writeOk i then buf.length else 0
    if written ≠ b.size then none
    else
      match write_loop wenv (i + 1) rest with
      | none => none
      | some tail => some (buf ++ tail)

/-- Embedding of `write_bzip2_file` (`parallel_bzip2.c:205-227`,
`parallel_bzip2_mem.c:211-228`): `none` is the `-1` / `IOFailure` return
(open failure or short write); `some bytes` is the content successfully
written to the output file. -/
def write_bzip2_file (wenv : WriteEnv) (blocks : List CompressedBlock) :
    Option (List Nat) :=
  if wenv.openOk then write_loop wenv 0 blocks else none

/-- Embedding of `cleanup_blocks` (`parallel_bzip2.c:229-236`): the list of
block indices whose `data` pointer is non-NULL, i.e. exactly the pointers
the function passes to `free`. -/
def cleanup_blocks_frees (blocks : List CompressedBlock) : List Nat :=
  (List.range blocks.length).filter
    (fun i => (blocks.getD i zeroBlock).data ≠ none)

/-- One iteration of the parallel loop of `parallel_bzip2.c:104-120`
(resident strategy): slice the in-memory file at the block's range and
compress it.  The `Bool` is whether the iteration incremented
`compression_errors`. -/
def resident_step (compress : List Nat → Option (List Nat))
    (envf : Nat → AllocEnv) (file : List Nat) (BLOCK_SIZE : Nat)
    (i : Nat) : CompressedBlock × Bool :=
  let offset := offset_of i BLOCK_SIZE
  let len := block_len (file.length) i BLOCK_SIZE
  let input := (file.drop offset).take len
  let r := compress_block (envf i) compress input
  (r.1, r.2 != 0)

/-- One iteration of the parallel loop of `parallel_bzip2_mem.c:75-134`
(on-demand strategy): open the input (`openOk`), allocate the block buffer
(`allocOk`), seek to the offset and read `len` bytes (short read when fewer
are available), then compress.  Every failure path leaves the
`calloc`-zeroed block untouched, increments the error counter and
continues with the next iteration. -/
def mem_step (compress : List Nat → Option (List Nat))
    (envf : Nat → AllocEnv) (openOk allocOk : Nat → Bool)
    (file : List Nat) (file_size : Int) (BLOCK_SIZE : Nat)
    (i : Nat) : CompressedBlock × Bool :=
  let offset := offset_of i BLOCK_SIZE
  let len := block_len file_size i BLOCK_SIZE
  if openOk i = false then (zeroBlock, true)
  else if allocOk i = false then (zeroBlock, true)
  else
    let bytes := (file.drop offset).take len
    if bytes.length ≠ len then (zeroBlock, true)
    else
      let r := compress_block (envf i) compress bytes
      (r.1, r.2 != 0)

/-- The parallel phase: `compressed_blocks` starts `calloc`-zeroed; the
loop body for block `i` stores its result at index `i` and adds its error
flag to the shared `compression_errors` counter.  `sched` is the order in
which the dynamically scheduled iterations complete; the OpenMP loop
performs each index of `[0, n)` exactly once, i.e. `sched` is a
permutation of `List.range n`. -/
def scheduler_run (n : Nat) (sched : List Nat)
    (step : Nat → CompressedBlock × Bool) : List CompressedBlock × Nat :=
  sched.foldl
    (fun acc i =>
      let r := step i
      (acc.1.set i r.1, acc.2 + if r.2 then 1 else 0))
    (List.replicate n zeroBlock, 0)

/-- Outcome of one run: process exit code, the bytes of the output file
(`none` when no output was successfully produced), and the final
`compression_errors` tally. -/
structure RunOutcome where
  exitCode : Nat
  output : Option (List Nat)
  errors : Nat
deriving DecidableEq, Repr

/-- The common tail of both `main`s (`parallel_bzip2.c:126-157`,
`parallel_bzip2_mem.c:140-168`): a non-zero failure tally aborts with exit
code 1 before `write_bzip2_file` is called; otherwise a write failure
aborts with exit code 1, and success exits 0. -/
def finish (wenv : WriteEnv) (r : List CompressedBlock × Nat) : RunOutcome :=
  if r.2 > 0 then { exitCode := 1, output := none, errors := r.2 }
  else
    match write_bzip2_file wenv r.1 with
    | none => { exitCode := 1, output := none, errors := r.2 }
    | some out => { exitCode := 0, output := some out, errors := r.2 }

/-- The compression run of `parallel_bzip2.c` (resident strategy) after a
successful full load of the input (`main`, lines 56-157): `worker_count`
is the OpenMP thread count, which influences only which completion order
`sched` is realised. -/
def run_resident (worker_count : Nat)
    (compress : List Nat → Option (List Nat)) (envf : Nat → AllocEnv)
    (wenv : WriteEnv) (file : List Nat) (BLOCK_SIZE : Nat)
    (sched : List Nat) : RunOutcome :=
  let _ := worker_count
  let n := (num_blocks (file.length) BLOCK_SIZE).toNat
  finish wenv (scheduler_run n sched (resident_step compress envf file BLOCK_SIZE))

/-- The compression run of `parallel_bzip2_mem.c` (on-demand strategy,
`main`, lines 54-168).  `file? = none` models a missing input file:
`stat` fails (`get_file_size` returns `-1`) and any per-block `fopen`
would fail. -/
def run_mem (worker_count : Nat)
    (compress : List Nat → Option (List Nat)) (envf : Nat → AllocEnv)
    (openOk allocOk : Nat → Bool) (wenv : WriteEnv)
    (file? : Option (List Nat)) (BLOCK_SIZE : Nat)
    (sched : List Nat) : RunOutcome :=
  let _ := worker_count
  let fsz := get_file_size (file?.map List.length)
  let n := (num_blocks fsz BLOCK_SIZE).toNat
  finish wenv
    (scheduler_run n sched
      (mem_step compress envf openOk allocOk (file?.getD []) fsz BLOCK_SIZE))

/-- The configuration check of both `main`s (`parallel_bzip2.c:27-54`):
without `-b` the default 900 KB is used; with `-b kb`, a non-positive
`atoi` result is rejected (`Invalid block size`, exit 1) before any file
is touched. -/
def config_phase (kbArg : Option Int) : Option Int :=
  match kbArg with
  | none => some 900
  | some kb => if kb ≤ 0 then none else some kb

/-- `main` of `parallel_bzip2.c` from argument parsing onward: an invalid
configuration exits 1 immediately; otherwise `BLOCK_SIZE = block_size_kb
* 1024` is computed in `int` and the compression run proceeds. -/
def run_top_resident (kbArg : Option Int) (worker_count : Nat)
    (compress : List Nat → Option (List Nat)) (envf : Nat → AllocEnv)
    (wenv : WriteEnv) (file : List Nat) (sched : List Nat) : RunOutcome :=
  match config_phase kbArg with
  | none => { exitCode := 1, output := none, errors := 0 }
  | some kb =>
      run_resident worker_count compress envf wenv file
        (toInt32 (kb * 1024)).toNat sched

/-- The block plan the pipeline computes for a `file_size`-byte input:
the `(offset, length)` pair of every loop iteration, in index order. -/
def plan (file_size BLOCK_SIZE : Nat) : List (Nat × Nat) :=
  (List.range (num_blocks file_size BLOCK_SIZE).toNat).map
    (fun i => (offset_of i BLOCK_SIZE, block_len file_size i BLOCK_SIZE))

/-- Checks that a list of `(offset, length)` ranges is contiguous starting
at position `pos`, with every length positive. -/
def chain_contig : Nat → List (Nat × Nat) → Bool
  | _, [] => true
  | pos, r :: rest => (r.1 == pos) && (r.2 != 0) && chain_contig (r.1 + r.2) rest

/-- The plan-coverage property claimed of the pipeline at `(file_size,
BLOCK_SIZE)`: the ranges are contiguous from offset 0 with positive
lengths (hence non-overlapping), their lengths sum to `file_size` (hence
they cover `[0, file_size)` exactly), and the last range's length is at
most `BLOCK_SIZE`. -/
def plan_claim_b (file_size BLOCK_SIZE : Nat) : Bool :=
  let L := plan file_size BLOCK_SIZE
  chain_contig 0 L && ((L.map Prod.snd).sum == file_size) &&
    (L.isEmpty || Nat.ble (L.getLastD (0, 0)).2 BLOCK_SIZE)

/-! Helper lemmas about the parallel phase. -/

theorem foldl_pair_split (sched : List Nat) (step : Nat → CompressedBlock × Bool)
    (t : List CompressedBlock) (e : Nat) :
    sched.foldl
        (fun acc i =>
          let r := step i
          (acc.1.set i r.1, acc.2 + if r.2 then 1 else 0)) (t, e)
      = (sched.foldl (fun t i => t.set i (step i).1) t,
         e + (sched.map (fun i => if (step i).2 then 1 else 0)).sum) := by
  induction sched generalizing t e with
  | nil => simp
  | cons a l ih =>
      simp only [List.foldl_cons, List.map_cons, List.sum_cons]
      rw [ih]
      simp [Nat.add_assoc]


theorem sum_indicator (p : Nat → Bool) (l : List Nat) :
    (l.map (fun i => if p i then 1 else 0)).sum = (l.filter p).length := by
  induction l with
  | nil => simp
  | cons a l ih =>
      by_cases h : p a
      · simp [List.filter_cons, h, ih]
        omega
      · simp [List.filter_cons, h, ih]

theorem foldl_set_length (f : Nat → CompressedBlock) (sched : List Nat)
    (t : List CompressedBlock) :
    (sched.foldl (fun t i => t.set i (f i)) t).length = t.length := by
  induction sched generalizing t with
  | nil => rfl
  | cons a l ih => simp [ih]

theorem foldl_set_getElem?_not_mem (f : Nat → CompressedBlock) (sched : List Nat)
    (t : List CompressedBlock) (j : Nat) (hj : j ∉ sched) :
    (sched.foldl (fun t i => t.set i (f i)) t)[j]? = t[j]? := by
  induction sched generalizing t with
  | nil => rfl
  | cons a l ih =>
      simp only [List.foldl_cons]
      rw [ih _ (fun h => hj (List.mem_cons_of_mem a h))]
      exact List.getElem?_set_ne (by rintro rfl; exact hj (List.mem_cons_self a l))

theorem foldl_set_getElem?_mem (f : Nat → CompressedBlock) (sched : List Nat)
    (hnd : sched.Nodup) (t : List CompressedBlock) (j : Nat) (hj : j ∈ sched)
    (hlt : j < t.length) :
    (sched.foldl (fun t i => t.set i (f i)) t)[j]? = some (f j) := by
  induction sched generalizing t with
  | nil => cases hj
  | cons a l ih =>
      simp only [List.foldl_cons]
      rcases List.mem_cons.mp hj with rfl | hmem
      · have hnot : j ∉ l := (List.nodup_cons.mp hnd).1
        rw [foldl_set_getElem?_not_mem f l _ j hnot]
        exact List.getElem?_set_self hlt
      · exact ih (List.nodup_cons.mp hnd).2 _ hmem (by simpa using hlt)

theorem scheduler_run_eq (n : Nat) (sched : List Nat)
    (step : Nat → CompressedBlock × Bool)
    (hperm : sched.Perm (List.range n)) :
    scheduler_run n sched step
      = ((List.range n).map (fun i => (step i).1),
         ((List.range n).filter (fun i => (step i).2)).length) := by
  unfold scheduler_run
  rw [foldl_pair_split, Nat.zero_add]
  have hnd : sched.Nodup := hperm.symm.nodup (List.nodup_range n)
  simp only [Prod.mk.injEq]
  constructor
  · apply List.ext_getElem?
    intro j
    by_cases hj : j < n
    · rw [foldl_set_getElem?_mem _ _ hnd _ j
          (hperm.mem_iff.mpr (List.mem_range.mpr hj))
          (by simpa [List.length_replicate] using hj)]
      rw [List.getElem?_map, List.getElem?_range hj]
      rfl
    · rw [foldl_set_getElem?_not_mem _ _ _ j
          (fun h => hj (List.mem_range.mp (hperm.mem_iff.mp h)))]
      rw [List.getElem?_eq_none (by simpa [List.length_replicate] using Nat.le_of_not_lt hj),
          List.getElem?_eq_none (by simpa using Nat.le_of_not_lt hj)]
  · rw [(hperm.map (fun i => if (step i).2 then 1 else 0)).sum_eq, sum_indicator]

/-! Helper lemmas about the block plan.  Throughout, `n` abbreviates the
mathematical ceiling `(fs + BS - 1) / BS` computed in `Nat`. -/

theorem ceil_bounds (fs BS : Nat) (hBS : 0 < BS) :
    fs ≤ ((fs + BS - 1) / BS) * BS ∧ ((fs + BS - 1) / BS) * BS ≤ fs + BS - 1 := by
  have h := Nat.div_add_mod (fs + BS - 1) BS
  rw [Nat.mul_comm BS ((fs + BS - 1) / BS)] at h
  have h2 := Nat.mod_lt (fs + BS - 1) hBS
  omega

theorem num_blocks_nat (fs BS : Nat) (hBS : 0 < BS)
    (hnb : (fs + BS - 1) / BS < 2 ^ 31) :
    num_blocks (fs : Int) BS = ((fs + BS - 1) / BS : Nat) := by
  unfold num_blocks
  have hcast : (fs : Int) + BS - 1 = ((fs + BS - 1 : Nat) : Int) := by
    have : 1 ≤ fs + BS := by omega
    push_cast [this]
    ring
  rw [hcast, ← Int.natCast_div]
  simp only [toInt32]
  have hlt : (((fs + BS - 1) / BS : Nat) : Int) < (2 : Int) ^ 32 := by
    have h31 : (((fs + BS - 1) / BS : Nat) : Int) < ((2 ^ 31 : Nat) : Int) := by
      exact_mod_cast hnb
    push_cast at h31
    omega
  rw [Int.emod_eq_of_lt (by positivity) hlt]
  rw [if_pos (show (((fs + BS - 1) / BS : Nat) : Int) < 2 ^ 31 by exact_mod_cast hnb)]

theorem plan_arith (fs BS : Nat) (hBS : 0 < BS) (hfit : fs + BS ≤ 2 ^ 32)
    (i : Nat) (hi : i < (fs + BS - 1) / BS) :
    offset_of i BS = i * BS ∧ block_len (fs : Int) i BS = min BS (fs - i * BS) := by
  obtain ⟨hfs_le, hn_le⟩ := ceil_bounds fs BS hBS
  have hi1 : (i + 1) * BS ≤ ((fs + BS - 1) / BS) * BS :=
    Nat.mul_le_mul_right BS hi
  have hkey : i * BS + BS ≤ fs + BS - 1 := by
    have hsucc : (i + 1) * BS = i * BS + BS := by ring
    omega
  have hoff_lt : i * BS < 2 ^ 32 := by omega
  have hoff : offset_of i BS = i * BS := by
    unfold offset_of u32 U32
    exact Nat.mod_eq_of_lt hoff_lt
  refine ⟨hoff, ?_⟩
  have hsum : u32 (i * BS + BS) = i * BS + BS := by
    unfold u32 U32
    exact Nat.mod_eq_of_lt (by omega)
  simp only [block_len, hoff, hsum]
  by_cases hlast : ((i * BS + BS : Nat) : Int) > (fs : Int)
  · have hlastn : fs < i * BS + BS := by exact_mod_cast hlast
    rw [if_pos hlast]
    have hle : ((i * BS : Nat) : Int) ≤ (fs : Int) := by
      exact_mod_cast (by omega : i * BS ≤ fs)
    have hpos : (0 : Int) ≤ (fs : Int) - (i * BS : Nat) := by omega
    have hlt : (fs : Int) - (i * BS : Nat) < (2 : Int) ^ 32 := by
      have h1 : ((fs : Nat) : Int) ≤ ((2 ^ 32 : Nat) : Int) :=
        by exact_mod_cast (by omega : fs ≤ 2 ^ 32)
      push_cast at h1 ⊢
      omega
    rw [Int.emod_eq_of_lt hpos hlt]
    have htn : ((fs : Int) - (i * BS : Nat)).toNat = fs - i * BS := by
      push_cast
      omega
    rw [htn]
    omega
  · rw [if_neg hlast]
    have hlastn : i * BS + BS ≤ fs := by
      have : ¬ (fs < i * BS + BS) := fun h => hlast (by exact_mod_cast h)
      omega
    omega

theorem plan_eq (fs BS : Nat) (hBS : 0 < BS) (hfit : fs + BS ≤ 2 ^ 32)
    (hnb : (fs + BS - 1) / BS < 2 ^ 31) :
    plan fs BS
      = (List.range ((fs + BS - 1) / BS)).map
          (fun i => (i * BS, min BS (fs - i * BS))) := by
  unfold plan
  rw [num_blocks_nat fs BS hBS hnb, Int.toNat_ofNat]
  apply List.map_congr_left
  intro i hi
  obtain ⟨h1, h2⟩ := plan_arith fs BS hBS hfit i (List.mem_range.mp hi)
  rw [h1, h2]

theorem chain_contig_spec (fs BS : Nat) (hBS : 0 < BS)
    (hfs_le : fs ≤ ((fs + BS - 1) / BS) * BS)
    (hn_le : ((fs + BS - 1) / BS) * BS ≤ fs + BS - 1) :
    ∀ m k, k + m = (fs + BS - 1) / BS →
      chain_contig (k * BS)
        ((List.range' k m).map (fun i => (i * BS, min BS (fs - i * BS)))) = true := by
  intro m
  induction m with
  | zero => intro k _; rfl
  | succ m ih =>
      intro k hk
      rw [List.range'_succ, List.map_cons]
      simp only [chain_contig, beq_self_eq_true, Bool.true_and, Bool.and_eq_true,
        bne_iff_ne, ne_eq]
      have hkBSfs : k * BS < fs := by
        have h1 : (k + 1) * BS ≤ ((fs + BS - 1) / BS) * BS :=
          Nat.mul_le_mul_right BS (by omega)
        have h2 : (k + 1) * BS = k * BS + BS := by ring
        omega
      refine ⟨by omega, ?_⟩
      cases m with
      | zero => rfl
      | succ m' =>
          have hmin : min BS (fs - k * BS) = BS := by
            have h1 : (k + 2) * BS ≤ ((fs + BS - 1) / BS) * BS :=
              Nat.mul_le_mul_right BS (by omega)
            have h2 : (k + 2) * BS = k * BS + BS + BS := by ring
            omega
          have hstep : k * BS + min BS (fs - k * BS) = (k + 1) * BS := by
            rw [hmin]; ring
          rw [hstep]
          exact ih (k + 1) (by omega)

theorem sum_lens_partial (fs BS : Nat) (hBS : 0 < BS)
    (_hn_le : ((fs + BS - 1) / BS) * BS ≤ fs + BS - 1) :
    ∀ k, k ≤ (fs + BS - 1) / BS →
      ((List.range k).map (fun i => min BS (fs - i * BS))).sum = min (k * BS) fs := by
  intro k
  induction k with
  | zero => intro _; simp
  | succ k ih =>
      intro hk
      rw [List.range_succ, List.map_append, List.sum_append]
      rw [ih (by omega)]
      simp only [List.map_cons, List.map_nil, List.sum_cons, List.sum_nil]
      have hkBSfs : k * BS < fs := by
        have h1 : (k + 1) * BS ≤ ((fs + BS - 1) / BS) * BS :=
          Nat.mul_le_mul_right BS (by omega)
        have h2 : (k + 1) * BS = k * BS + BS := by ring
        omega
      have h2 : (k + 1) * BS = k * BS + BS := by ring
      omega

theorem getD_map_range {α : Type} (g : Nat → α) (n j : Nat) (hj : j < n) (d : α) :
    ((List.range n).map g).getD j d = g j := by
  rw [List.getD_eq_getElem?_getD, List.getElem?_map, List.getElem?_range hj]
  rfl

theorem cover_unique (fs BS : Nat) (hBS : 0 < BS)
    (hfs_le : fs ≤ ((fs + BS - 1) / BS) * BS)
    (_hn_le : ((fs + BS - 1) / BS) * BS ≤ fs + BS - 1)
    (p : Nat) (hp : p < fs) :
    ∃! j, j < (fs + BS - 1) / BS ∧ j * BS ≤ p ∧
      p < j * BS + min BS (fs - j * BS) := by
  have hdm := Nat.div_add_mod p BS
  rw [Nat.mul_comm BS (p / BS)] at hdm
  have hmod := Nat.mod_lt p hBS
  refine ⟨p / BS, ⟨?_, ?_, ?_⟩, ?_⟩
  · rw [Nat.div_lt_iff_lt_mul hBS]
    omega
  · exact Nat.div_mul_le_self p BS
  · have h1 : p < p / BS * BS + BS := by omega
    have h2 : p / BS * BS ≤ p := Nat.div_mul_le_self p BS
    omega
  · rintro y ⟨hy, hyle, hylt⟩
    have hyBS : p < y * BS + BS := by
      have : min BS (fs - y * BS) ≤ BS := Nat.min_le_left _ _
      omega
    have h2 : (y + 1) * BS = y * BS + BS := by ring
    exact (Nat.div_eq_of_lt_le (by omega) (by omega)).symm

theorem getLastD_map_range {α : Type} (g : Nat → α) (n : Nat) (hn : 0 < n) (d : α) :
    ((List.range n).map g).getLastD d = g (n - 1) := by
  obtain ⟨m, rfl⟩ : ∃ m, n = m + 1 := ⟨n - 1, by omega⟩
  rw [List.range_succ, List.map_append]
  simp [List.getLastD_concat]

theorem plan_claim_holds (fs BS : Nat) (hBS : 0 < BS) (hfit : fs + BS ≤ 2 ^ 32)
    (hnb : (fs + BS - 1) / BS < 2 ^ 31) : plan_claim_b fs BS = true := by
  obtain ⟨hfs_le, hn_le⟩ := ceil_bounds fs BS hBS
  unfold plan_claim_b
  rw [plan_eq fs BS hBS hfit hnb]
  simp only [Bool.and_eq_true, beq_iff_eq, Bool.or_eq_true, Nat.ble_eq]
  refine ⟨⟨?_, ?_⟩, ?_⟩
  · have hc := chain_contig_spec fs BS hBS hfs_le hn_le ((fs + BS - 1) / BS) 0 (by omega)
    simpa [List.range_eq_range'] using hc
  · rw [List.map_map]
    have hsum := sum_lens_partial fs BS hBS hn_le ((fs + BS - 1) / BS) (le_refl _)
    have hmap : List.map (Prod.snd ∘ fun i => (i * BS, min BS (fs - i * BS)))
        (List.range ((fs + BS - 1) / BS))
        = List.map (fun i => min BS (fs - i * BS)) (List.range ((fs + BS - 1) / BS)) :=
      List.map_congr_left (fun a _ => rfl)
    rw [hmap, hsum]
    exact Nat.min_eq_right hfs_le
  · by_cases h0 : (fs + BS - 1) / BS = 0
    · left
      simp [h0]
    · right
      rw [getLastD_map_range _ _ (Nat.pos_of_ne_zero h0)]
      exact Nat.min_le_left _ _

/-! The claims. -/

/-- C1 (corrected): the block plan computed by the pipeline is contiguous,
non-overlapping, covers `[0, total_length)` exactly, gives block `i` the
offset `i * block_size` and the length `block_size` except for the last
block, whose length is `total_length - offset` and lies in
`(0, block_size]` — provided the arithmetic fits the source's types:
`block_size > 0`, `total_length + block_size ≤ 2 ^ 32` (so the
`unsigned int` offset arithmetic does not wrap) and
`num_blocks < 2 ^ 31` (so the `int` block count does not overflow).
Without the fitting hypotheses the claim is false (`block_plan_cex`). -/
theorem block_plan_correct (fs BS : Nat) (hBS : 0 < BS)
    (hfit : fs + BS ≤ 2 ^ 32) (hnb : (fs + BS - 1) / BS < 2 ^ 31) :
    (plan fs BS).length = (fs + BS - 1) / BS
    ∧ (∀ j, j < (plan fs BS).length →
        (plan fs BS).getD j (0, 0)
          = (j * BS, if j + 1 = (plan fs BS).length then fs - j * BS else BS))
    ∧ plan_claim_b fs BS = true
    ∧ (∀ p, p < fs →
        ∃! j, j < (plan fs BS).length
          ∧ ((plan fs BS).getD j (0, 0)).1 ≤ p
          ∧ p < ((plan fs BS).getD j (0, 0)).1 + ((plan fs BS).getD j (0, 0)).2) := by
  obtain ⟨hfs_le, hn_le⟩ := ceil_bounds fs BS hBS
  have hpe := plan_eq fs BS hBS hfit hnb
  have hlen : (plan fs BS).length = (fs + BS - 1) / BS := by
    rw [hpe]
    simp
  refine ⟨hlen, ?_, plan_claim_holds fs BS hBS hfit hnb, ?_⟩
  · intro j hj
    rw [hlen] at hj ⊢
    rw [hpe, getD_map_range _ _ j hj]
    by_cases hl : j + 1 = (fs + BS - 1) / BS
    · rw [if_pos hl]
      have h4 : fs ≤ (j + 1) * BS := by
        rw [hl]
        exact hfs_le
      have h2 : (j + 1) * BS = j * BS + BS := by ring
      have hmin : min BS (fs - j * BS) = fs - j * BS := by omega
      rw [hmin]
    · rw [if_neg hl]
      have hj1 : j + 2 ≤ (fs + BS - 1) / BS := by omega
      have h1 : (j + 2) * BS ≤ ((fs + BS - 1) / BS) * BS := Nat.mul_le_mul_right BS hj1
      have h2 : (j + 2) * BS = j * BS + BS + BS := by ring
      have hmin : min BS (fs - j * BS) = BS := by omega
      rw [hmin]
  · intro p hp
    obtain ⟨j, ⟨hj1, hj2, hj3⟩, huniq⟩ := cover_unique fs BS hBS hfs_le hn_le p hp
    refine ⟨j, ⟨?_, ?_, ?_⟩, ?_⟩
    · rw [hlen]
      exact hj1
    · rw [hpe, getD_map_range _ _ j hj1]
      exact hj2
    · rw [hpe, getD_map_range _ _ j hj1]
      exact hj3
    · rintro y ⟨hy1, hy2, hy3⟩
      rw [hlen] at hy1
      rw [hpe, getD_map_range _ _ y hy1] at hy2 hy3
      exact huniq y ⟨hy1, hy2, hy3⟩

/-- C1 counterexample: for a 5 GiB input with the valid 1 GiB block size
(`-b 1048576`), the pipeline plans 5 blocks but block 4's `unsigned int`
offset wraps to 0 (`4 * 2 ^ 30 = 2 ^ 32`), so the planned ranges are not
contiguous, overlap block 0's range, and do not cover the input. -/
theorem block_plan_cex :
    0 < (1073741824 : Nat) ∧ plan_claim_b 5368709120 1073741824 = false := by
  constructor
  · decide
  · decide

/-- C1 witness: the concrete scenario of the spec (2560-byte
input, 1024-byte blocks) satisfies the amended claim. -/
theorem block_plan_correct_witness :
    plan 2560 1024 = [(0, 1024), (1024, 1024), (2048, 512)]
      ∧ plan_claim_b 2560 1024 = true :=
  ⟨by decide, (block_plan_correct 2560 1024 (by decide) (by decide) (by decide)).2.2.1⟩

/-- C3 counterexample: for the 5 GiB file size and 1 GiB block size the
pipeline computes 5 blocks, and block 4's offset is 0, not
`4 * block_size = 2 ^ 32`: the 32-bit unsigned offset type truncates it. -/
theorem offset_truncated_cex :
    (num_blocks ((5368709120 : Nat) : Int) 1073741824).toNat = 5
      ∧ offset_of 4 1073741824 = 0
      ∧ 4 * 1073741824 = (4294967296 : Nat)
      ∧ offset_of 4 1073741824 ≠ 4 * 1073741824 := by
  refine ⟨by decide, by decide, by decide, by decide⟩

/-- C3 (corrected): the per-block byte offset the pipeline computes is
`i * block_size` reduced modulo `2 ^ 32`; it equals `i * block_size`
exactly iff that product fits the source's 32-bit unsigned offset type.
In particular offsets ARE truncated for file-size/block-size combinations
whose products reach `2 ^ 32` (contrary to the claim, in line with the
spec's open question). -/
theorem offset_exact_iff_no_wrap (i BS : Nat) :
    offset_of i BS = i * BS ↔ i * BS < 2 ^ 32 := by
  unfold offset_of u32 U32
  constructor
  · intro h
    have hm := Nat.mod_lt (i * BS) (show 0 < 2 ^ 32 by norm_num)
    omega
  · exact Nat.mod_eq_of_lt

/-! Helper lemmas about the writer. -/

theorem write_loop_all_ok (wenv : WriteEnv) :
    ∀ (blocks : List CompressedBlock) (i0 : Nat),
      (∀ b ∈ blocks, ∃ bytes, b.data = some bytes ∧ b.size = bytes.length) →
      (∀ k, k < blocks.length → wenv.writeOk (i0 + k) = true) →
      write_loop wenv i0 blocks
        = some ((blocks.map (fun b => b.data.getD [])).flatten) := by
  intro blocks
  induction blocks with
  | nil => intro i0 _ _; rfl
  | cons b rest ih =>
      intro i0 hgood hok
      obtain ⟨bytes, hdata, hsize⟩ := hgood b (List.mem_cons_self b rest)
      have hok0 : wenv.writeOk i0 = true := by
        simpa using hok 0 (by simp)
      have hrec := ih (i0 + 1)
        (fun x hx => hgood x (List.mem_cons_of_mem b hx))
        (fun k hk => by
          rw [show i0 + 1 + k = i0 + (k + 1) by omega]
          exact hok (k + 1) (by simp only [List.length_cons]; omega))
      simp only [write_loop, hok0, if_true, hdata, Option.getD_some, hsize,
        List.take_length, hrec]
      simp [ne_eq, hdata]

theorem write_loop_short (wenv : WriteEnv) :
    ∀ (blocks : List CompressedBlock) (i0 : Nat),
      (∀ b ∈ blocks, b.size ≠ 0) →
      (∃ k, k < blocks.length ∧ wenv.writeOk (i0 + k) = false) →
      write_loop wenv i0 blocks = none := by
  intro blocks
  induction blocks with
  | nil =>
      rintro i0 _ ⟨k, hk, _⟩
      simp at hk
  | cons b rest ih =>
      rintro i0 hsz ⟨k, hk, hko⟩
      cases hw : wenv.writeOk i0 with
      | false =>
          have hbs : b.size ≠ 0 := hsz b (List.mem_cons_self b rest)
          simp only [write_loop, hw, Bool.false_eq_true, if_false]
          rw [if_pos (by omega)]
      | true =>
          simp only [write_loop, hw, if_true]
          by_cases hc : ((b.data.getD []).take b.size).length ≠ b.size
          · rw [if_pos hc]
          · rw [if_neg hc]
            have hk0 : k ≠ 0 := by
              rintro rfl
              rw [Nat.add_zero] at hko
              rw [hw] at hko
              cases hko
            have hrest : write_loop wenv (i0 + 1) rest = none := by
              refine ih (i0 + 1) (fun x hx => hsz x (List.mem_cons_of_mem b hx))
                ⟨k - 1, ?_, ?_⟩
              · simp only [List.length_cons] at hk
                omega
              · rw [show i0 + 1 + (k - 1) = i0 + k by omega]
                exact hko
            rw [hrest]

/-- C5 (confirmed): `write_bzip2_file` writes the blocks' payloads
strictly in ascending index order with nothing between them — on full
success the output is exactly the concatenation of the payloads — and
returns the `IOFailure` result (`none`) when the target cannot be opened
or any `fwrite` is short.  Nothing is guaranteed about partial content on
failure.  The hypothesis states the table holds successful compressed
blocks (non-NULL data whose `size` field is the payload length; a
successful bzip2 payload is never empty). -/
theorem writer_order_and_failure (wenv : WriteEnv) (blocks : List CompressedBlock)
    (hgood : ∀ b ∈ blocks,
      ∃ bytes, b.data = some bytes ∧ b.size = bytes.length ∧ bytes ≠ []) :
    (wenv.openOk = false → write_bzip2_file wenv blocks = none)
    ∧ ((∃ i, i < blocks.length ∧ wenv.writeOk i = false) →
        write_bzip2_file wenv blocks = none)
    ∧ (wenv.openOk = true → (∀ i, i < blocks.length → wenv.writeOk i = true) →
        write_bzip2_file wenv blocks
          = some ((blocks.map (fun b => b.data.getD [])).flatten)) := by
  refine ⟨?_, ?_, ?_⟩
  · intro hopen
    simp [write_bzip2_file, hopen]
  · rintro ⟨i, hi, hko⟩
    unfold write_bzip2_file
    rcases hO : wenv.openOk with _ | _
    · rfl
    · rw [if_pos rfl]
      refine write_loop_short wenv blocks 0 ?_ ⟨i, hi, by simpa using hko⟩
      intro b hb
      obtain ⟨bytes, _, hsize, hne⟩ := hgood b hb
      rw [hsize]
      simpa using hne
  · intro hopen hok
    rw [write_bzip2_file, if_pos hopen]
    exact write_loop_all_ok wenv blocks 0
      (fun b hb => by
        obtain ⟨bytes, hdata, hsize, _⟩ := hgood b hb
        exact ⟨bytes, hdata, hsize⟩)
      (fun k hk => by simpa using hok k hk)

/-- C5 witness: a two-block table is written as the exact concatenation of
the two payloads. -/
theorem writer_order_and_failure_witness :
    write_bzip2_file ⟨true, fun _ => true⟩
      [⟨some [1, 2], 2, 9⟩, ⟨some [3], 1, 9⟩] = some [1, 2, 3] := by
  have h := (writer_order_and_failure ⟨true, fun _ => true⟩
      [⟨some [1, 2], 2, 9⟩, ⟨some [3], 1, 9⟩]
      (by
        rintro b hb
        simp only [List.mem_cons, List.not_mem_nil, or_false] at hb
        rcases hb with rfl | rfl
        · exact ⟨[1, 2], rfl, rfl, by decide⟩
        · exact ⟨[3], rfl, rfl, by decide⟩)).2.2 rfl (fun i _ => rfl)
  rw [h]
  rfl

/-- C10 counterexample: with a working allocator for the initial buffer, a
successful compressor, but a failing final shrink `realloc`,
`compress_block` returns success (0) yet leaves the block's data pointer
NULL — the claim that success implies a non-NULL pointer is false on the
code because the `realloc` result is unchecked. -/
theorem compress_block_realloc_cex :
    (compress_block ⟨true, false⟩ (fun _ => some [7]) [0]).2 = 0
      ∧ (compress_block ⟨true, false⟩ (fun _ => some [7]) [0]).1.data = none := by
  exact ⟨rfl, rfl⟩

/-- C10 (corrected): every failing return (-1) of `compress_block` leaves
the block's data pointer NULL; a success return leaves it non-NULL with
`size` equal to the compressed length provided the final unchecked shrink
`realloc` succeeds (if it fails the function still returns 0 with a NULL
pointer, see `compress_block_realloc_cex`); and `cleanup_blocks` frees
exactly the non-NULL data pointers, each exactly once, so it is safe on a
result table in which any subset of blocks succeeded. -/
theorem compress_block_null_discipline :
    (∀ env compress input, (compress_block env compress input).2 ≠ 0 →
        (compress_block env compress input).1.data = none)
    ∧ (∀ env compress input out, env.mallocOk = true → env.reallocOk = true →
        compress input = some out →
        compress_block env compress input
          = ({ data := some out, size := u32 out.length,
               original_size := u32 input.length }, 0))
    ∧ (∀ blocks : List CompressedBlock,
        (cleanup_blocks_frees blocks).Nodup
        ∧ (∀ i, i ∈ cleanup_blocks_frees blocks ↔
            i < blocks.length ∧ (blocks.getD i zeroBlock).data ≠ none)) := by
  refine ⟨?_, ?_, ?_⟩
  · intro env compress input h
    cases hm : env.mallocOk with
    | false => simp [compress_block, hm]
    | true =>
        cases hc : compress input with
        | none => simp [compress_block, hm, hc]
        | some out =>
            cases hr : env.reallocOk with
            | false => simp [compress_block, hm, hc, hr]
            | true =>
                exfalso
                apply h
                simp [compress_block, hm, hc, hr]
  · intro env compress input out hm hr hc
    simp [compress_block, hm, hc, hr]
  · intro blocks
    refine ⟨List.Nodup.filter _ (List.nodup_range _), ?_⟩
    intro i
    simp [cleanup_blocks_frees, List.mem_filter, List.mem_range, and_comm]

/-- C10 witness: on a fully successful environment the compressed payload
is stored with its exact length, and a one-success one-failure table frees
exactly the successful index. -/
theorem compress_block_null_discipline_witness :
    compress_block ⟨true, true⟩ (fun _ => some [7, 8]) [1, 2, 3]
      = ({ data := some [7, 8], size := 2, original_size := 3 }, 0)
      ∧ cleanup_blocks_frees [zeroBlock, ⟨some [7, 8], 2, 3⟩] = [1] := by
  constructor
  · have h := compress_block_null_discipline.2.1 ⟨true, true⟩
      (fun _ => some [7, 8]) [1, 2, 3] [7, 8] rfl rfl rfl
    rw [h]
    rfl
  · rfl

/-- C6 (confirmed): over any completion order that attempts every block
index of `[0, num_blocks)` exactly once, the parallel phase records an
outcome for every index before returning — the table entry at `j` is
exactly the result of processing block `j`, independent of failures at
any other index — and the shared counter ends at the number of failing
indices: a failure never short-circuits the remaining blocks, it only
adds to the tally. -/
theorem all_blocks_attempted (n : Nat) (sched : List Nat)
    (step : Nat → CompressedBlock × Bool)
    (hperm : sched.Perm (List.range n)) :
    (scheduler_run n sched step).1.length = n
    ∧ (∀ j, j < n →
        (scheduler_run n sched step).1.getD j zeroBlock = (step j).1)
    ∧ (scheduler_run n sched step).2
        = ((List.range n).filter (fun i => (step i).2)).length := by
  rw [scheduler_run_eq n sched step hperm]
  refine ⟨by simp, ?_, rfl⟩
  intro j hj
  exact getD_map_range _ _ j hj _

/-- C6 witness: a two-block run completing out of order, with block 0
failing, still records both entries and tallies exactly one failure. -/
theorem all_blocks_attempted_witness :
    (scheduler_run 2 [1, 0] (fun i => (zeroBlock, i == 0))).1.length = 2
      ∧ (scheduler_run 2 [1, 0] (fun i => (zeroBlock, i == 0))).1.getD 1 zeroBlock
          = zeroBlock
      ∧ (scheduler_run 2 [1, 0] (fun i => (zeroBlock, i == 0))).2 = 1 := by
  have h := all_blocks_attempted 2 [1, 0] (fun i => (zeroBlock, i == 0)) (by decide)
  exact ⟨h.1, by rw [h.2.1 1 (by decide)], h.2.2.trans (by decide)⟩

/-- C7 (confirmed): holding the input bytes and the block size fixed, the
resident pipeline's outcome — in particular the output bytes — does not
depend on the worker count or on the completion order of the blocks: any
two worker counts and any two completion orders give identical outcomes,
because the result table is index-partitioned. -/
theorem worker_count_invariant (compress : List Nat → Option (List Nat))
    (envf : Nat → AllocEnv) (wenv : WriteEnv) (file : List Nat) (BS : Nat)
    (wc1 wc2 : Nat) (sched1 sched2 : List Nat)
    (h1 : sched1.Perm (List.range ((num_blocks (file.length) BS).toNat)))
    (h2 : sched2.Perm (List.range ((num_blocks (file.length) BS).toNat))) :
    run_resident wc1 compress envf wenv file BS sched1
      = run_resident wc2 compress envf wenv file BS sched2 := by
  simp only [run_resident]
  rw [scheduler_run_eq _ _ _ h1, scheduler_run_eq _ _ _ h2]

/-- C7 witness: worker counts 1 and 4 with different (here trivial)
completion orders give the same outcome on a one-block input. -/
theorem worker_count_invariant_witness :
    run_resident 1 (fun l => some l) (fun _ => ⟨true, true⟩)
        ⟨true, fun _ => true⟩ [5, 6, 7] 1024 [0]
      = run_resident 4 (fun l => some l) (fun _ => ⟨true, true⟩)
        ⟨true, fun _ => true⟩ [5, 6, 7] 1024 [0] :=
  worker_count_invariant (fun l => some l) (fun _ => ⟨true, true⟩)
    ⟨true, fun _ => true⟩ [5, 6, 7] 1024 1 4 [0] [0] (by decide) (by decide)

/-- C4 (confirmed): in both pipelines, a non-zero failure tally after the
parallel phase makes the run exit with code 1 and produce no output; the
outcome is moreover independent of the write environment, i.e. the writer
is never invoked, so the run writes no partial or inconsistent output
file. -/
theorem failed_blocks_abort_run :
    (∀ wc compress envf wenv wenv' (file : List Nat) BS sched,
      (scheduler_run ((num_blocks (file.length) BS).toNat) sched
          (resident_step compress envf file BS)).2 ≠ 0 →
      run_resident wc compress envf wenv file BS sched
          = { exitCode := 1, output := none,
              errors := (scheduler_run ((num_blocks (file.length) BS).toNat) sched
                (resident_step compress envf file BS)).2 }
        ∧ run_resident wc compress envf wenv file BS sched
            = run_resident wc compress envf wenv' file BS sched)
    ∧ (∀ wc compress envf openOk allocOk wenv wenv' (file? : Option (List Nat)) BS sched,
      (scheduler_run ((num_blocks (get_file_size (Option.map List.length file?)) BS).toNat)
          sched
          (mem_step compress envf openOk allocOk (file?.getD [])
            (get_file_size (Option.map List.length file?)) BS)).2 ≠ 0 →
      run_mem wc compress envf openOk allocOk wenv file? BS sched
          = { exitCode := 1, output := none,
              errors := (scheduler_run
                ((num_blocks (get_file_size (Option.map List.length file?)) BS).toNat)
                sched
                (mem_step compress envf openOk allocOk (file?.getD [])
                  (get_file_size (Option.map List.length file?)) BS)).2 }
        ∧ run_mem wc compress envf openOk allocOk wenv file? BS sched
            = run_mem wc compress envf openOk allocOk wenv' file? BS sched) := by
  constructor
  · intro wc compress envf wenv wenv' file BS sched h
    simp only [run_resident, finish]
    rw [if_pos (Nat.pos_of_ne_zero h), if_pos (Nat.pos_of_ne_zero h)]
    exact ⟨rfl, rfl⟩
  · intro wc compress envf openOk allocOk wenv wenv' file? BS sched h
    simp only [run_mem, finish]
    rw [if_pos (Nat.pos_of_ne_zero h), if_pos (Nat.pos_of_ne_zero h)]
    exact ⟨rfl, rfl⟩

/-- C4 witness: a one-block resident run whose compressor always fails
exits 1 with one tallied failure and no output. -/
theorem failed_blocks_abort_run_witness :
    run_resident 1 (fun _ => none) (fun _ => ⟨true, true⟩)
        ⟨true, fun _ => true⟩ [1] 1024 [0]
      = { exitCode := 1, output := none, errors := 1 } := by
  have h := (failed_blocks_abort_run.1 1 (fun _ => none) (fun _ => ⟨true, true⟩)
      ⟨true, fun _ => true⟩ ⟨false, fun _ => false⟩ [1] 1024 [0] (by decide)).1
  rw [h]
  decide

theorem step_equiv (compress : List Nat → Option (List Nat))
    (envf : Nat → AllocEnv) (openOk allocOk : Nat → Bool)
    (file : List Nat) (BS : Nat)
    (hBS : 0 < BS) (hfit : file.length + BS ≤ 2 ^ 32)
    (hopen : ∀ i, openOk i = true) (halloc : ∀ i, allocOk i = true)
    (i : Nat) (hi : i < (file.length + BS - 1) / BS) :
    mem_step compress envf openOk allocOk file (file.length) BS i
      = resident_step compress envf file BS i := by
  obtain ⟨hoff, hlen⟩ := plan_arith file.length BS hBS hfit i hi
  have hlen_le : block_len (file.length) i BS ≤ file.length - offset_of i BS := by
    rw [hoff, hlen]
    exact Nat.min_le_right _ _
  have hread : ((file.drop (offset_of i BS)).take (block_len (file.length) i BS)).length
      = block_len (file.length) i BS := by
    rw [List.length_take, List.length_drop]
    omega
  simp only [mem_step, resident_step, hopen i, halloc i, Bool.true_eq_false,
    if_false, hread, ne_eq, not_true_eq_false]

/-- C2 (confirmed): on the same input file, block size and worker count —
with the arithmetic in the range where the source's 32-bit offsets do not
wrap, the per-worker opens and allocations succeeding, and the same
compressor, allocator and write environment — the resident strategy and
the on-demand strategy produce identical outcomes, in particular
byte-identical output files. -/
theorem strategy_equivalence (wc : Nat) (compress : List Nat → Option (List Nat))
    (envf : Nat → AllocEnv) (openOk allocOk : Nat → Bool) (wenv : WriteEnv)
    (file : List Nat) (BS : Nat) (sched : List Nat)
    (hBS : 0 < BS) (hfit : file.length + BS ≤ 2 ^ 32)
    (hnb : (file.length + BS - 1) / BS < 2 ^ 31)
    (hperm : sched.Perm (List.range ((num_blocks (file.length) BS).toNat)))
    (hopen : ∀ i, openOk i = true) (halloc : ∀ i, allocOk i = true) :
    run_resident wc compress envf wenv file BS sched
      = run_mem wc compress envf openOk allocOk wenv (some file) BS sched := by
  have hn : (num_blocks (file.length) BS).toNat = (file.length + BS - 1) / BS := by
    rw [num_blocks_nat file.length BS hBS hnb, Int.toNat_ofNat]
  have hfs : get_file_size (Option.map List.length (some file)) = (file.length : Int) := rfl
  have hperm2 : sched.Perm (List.range ((file.length + BS - 1) / BS)) := hn ▸ hperm
  simp only [run_resident, run_mem, hfs, Option.getD_some, hn]
  rw [scheduler_run_eq _ _ _ hperm2, scheduler_run_eq _ _ _ hperm2]
  have hsteps : ∀ i ∈ List.range ((file.length + BS - 1) / BS),
      resident_step compress envf file BS i
        = mem_step compress envf openOk allocOk file (file.length) BS i :=
    fun i hi =>
      (step_equiv compress envf openOk allocOk file BS hBS hfit hopen halloc i
        (List.mem_range.mp hi)).symm
  have htab : List.map (fun i => (resident_step compress envf file BS i).1)
        (List.range ((file.length + BS - 1) / BS))
      = List.map (fun i => (mem_step compress envf openOk allocOk file (file.length) BS i).1)
        (List.range ((file.length + BS - 1) / BS)) :=
    List.map_congr_left (fun i hi => by rw [hsteps i hi])
  have hflt : (List.range ((file.length + BS - 1) / BS)).filter
        (fun i => (resident_step compress envf file BS i).2)
      = (List.range ((file.length + BS - 1) / BS)).filter
        (fun i => (mem_step compress envf openOk allocOk file (file.length) BS i).2) :=
    List.filter_congr (fun i hi => by rw [hsteps i hi])
  rw [htab, hflt]

/-- C2 witness: a concrete three-byte file compressed with both strategies
under a fully successful environment gives identical runs. -/
theorem strategy_equivalence_witness :
    run_resident 2 (fun l => some l) (fun _ => ⟨true, true⟩)
        ⟨true, fun _ => true⟩ [5, 6, 7] 1024 [0]
      = run_mem 2 (fun l => some l) (fun _ => ⟨true, true⟩)
        (fun _ => true) (fun _ => true) ⟨true, fun _ => true⟩
        (some [5, 6, 7]) 1024 [0] :=
  strategy_equivalence 2 (fun l => some l) (fun _ => ⟨true, true⟩)
    (fun _ => true) (fun _ => true) ⟨true, fun _ => true⟩ [5, 6, 7] 1024 [0]
    (by decide) (by decide) (by decide) (by decide)
    (fun _ => rfl) (fun _ => rfl)

/-- C8 (confirmed): a non-positive configured block size makes the run
exit 1 with `Invalid block size` before touching any file: the outcome is
a constant independent of the worker count, compressor, allocation and
write environments, input bytes and schedule — no I/O happens and no
state is created — while every positive block size passes the
configuration check and the run proceeds into the pipeline. -/
theorem invalid_config_fails_fast :
    (∀ kb : Int, kb ≤ 0 →
      ∀ wc compress envf wenv (file : List Nat) sched
        wc2 compress2 envf2 wenv2 (file2 : List Nat) sched2,
        run_top_resident (some kb) wc compress envf wenv file sched
            = { exitCode := 1, output := none, errors := 0 }
          ∧ run_top_resident (some kb) wc compress envf wenv file sched
              = run_top_resident (some kb) wc2 compress2 envf2 wenv2 file2 sched2)
    ∧ (∀ kb : Int, 0 < kb → config_phase (some kb) = some kb) := by
  constructor
  · intro kb hkb wc compress envf wenv file sched wc2 compress2 envf2 wenv2 file2 sched2
    have hc : config_phase (some kb) = none := by
      simp only [config_phase]
      rw [if_pos hkb]
    constructor
    · simp only [run_top_resident, hc]
    · simp only [run_top_resident, hc]
  · intro kb hkb
    simp only [config_phase]
    rw [if_neg (by omega)]

/-- C8 witness: block size -3 is rejected with the constant failure
outcome regardless of the environment, and block size 7 passes the check. -/
theorem invalid_config_fails_fast_witness :
    run_top_resident (some (-3)) 1 (fun l => some l) (fun _ => ⟨true, true⟩)
        ⟨true, fun _ => true⟩ [1, 2] [0]
      = { exitCode := 1, output := none, errors := 0 }
      ∧ config_phase (some 7) = some 7 :=
  ⟨(invalid_config_fails_fast.1 (-3) (by decide) 1 (fun l => some l)
      (fun _ => ⟨true, true⟩) ⟨true, fun _ => true⟩ [1, 2] [0] 1 (fun l => some l)
      (fun _ => ⟨true, true⟩) ⟨true, fun _ => true⟩ [1, 2] [0]).1,
   invalid_config_fails_fast.2 7 (by decide)⟩

/-- C9 (confirmed): in the on-demand pipeline a failing stat on the input
(`get_file_size` returns -1, e.g. the file does not exist) is not
reported as an error: since `BLOCK_SIZE = block_size_kb * 1024 ≥ 2`,
`num_blocks` evaluates to 0, the parallel loop body never runs, the
failure counter stays 0, an empty output file is written and the process
exits 0. -/
theorem missing_input_silent_success (BS : Nat) (hBS2 : 2 ≤ BS)
    (wc : Nat) (compress : List Nat → Option (List Nat)) (envf : Nat → AllocEnv)
    (openOk allocOk : Nat → Bool) (wenv : WriteEnv) (hopen : wenv.openOk = true) :
    num_blocks (get_file_size none) BS = 0
    ∧ run_mem wc compress envf openOk allocOk wenv none BS []
        = { exitCode := 0, output := some [], errors := 0 } := by
  have hnb : num_blocks (get_file_size none) BS = 0 := by
    have h1 : get_file_size none = -1 := rfl
    rw [h1]
    unfold num_blocks
    have h2 : (-1 : Int) + BS - 1 = ((BS - 2 : Nat) : Int) := by omega
    rw [h2, ← Int.natCast_div, Nat.div_eq_of_lt (by omega)]
    decide
  refine ⟨hnb, ?_⟩
  have hmap : Option.map List.length (none : Option (List Nat)) = none := rfl
  simp only [run_mem, hmap, hnb, Int.toNat_zero]
  simp only [scheduler_run, List.foldl_nil, List.replicate, finish]
  rw [if_neg (by omega)]
  simp only [write_bzip2_file, hopen, if_true, write_loop]

/-- C9 witness: with the default 900 KB block size and a missing input
file, the on-demand run writes an empty output and exits 0. -/
theorem missing_input_silent_success_witness :
    run_mem 8 (fun l => some l) (fun _ => ⟨true, true⟩) (fun _ => true)
        (fun _ => true) ⟨true, fun _ => true⟩ none 921600 []
      = { exitCode := 0, output := some [], errors := 0 } :=
  (missing_input_silent_success 921600 (by decide) 8 (fun l => some l)
    (fun _ => ⟨true, true⟩) (fun _ => true) (fun _ => true)
    ⟨true, fun _ => true⟩ rfl).2

end ParallelBzip2
